import Mathlib

/-!
Verification of the TalentScout interview assistant (`app.py`).

The development shallowly embeds the conversation state machine of the
application: the session dictionary created by `initialize_session_state`,
the transition function `update_conversation_state`, and the control flow
of `get_chat_response` around the language-model call.  Python strings are
modelled as Lean `String`s; `str.lower`, substring containment (`in`),
`str.split(",")` and `str.strip()` are modelled by executable functions on
character lists with the same semantics; Python dictionaries keyed by
strings are modelled as association lists where assignment replaces the
value at an existing key in place or appends a fresh key at the end, which
matches the insertion-order semantics of Python dicts.
-/

namespace TalentScout

/-- Model of `str.lower()` restricted to the ASCII range, which is all the
keyword matching in the program exercises. -/
def pyLower (u : String) : List Char := u.toList.map Char.toLower

/-- Model of Python's substring containment `pat in s` on character lists. -/
def isSubstring : List Char → List Char → Bool
  | pat, [] => pat.isEmpty
  | pat, c :: rest => pat.isPrefixOf (c :: rest) || isSubstring pat rest

/-- Helper for `splitComma`: accumulates the current piece (reversed). -/
def splitCommaAux : List Char → List Char → List (List Char)
  | acc, [] => [acc.reverse]
  | acc, c :: rest =>
    if c = ',' then acc.reverse :: splitCommaAux [] rest
    else splitCommaAux (c :: acc) rest

/-- Model of Python's `s.split(",")`: split on every comma, keeping empty
pieces; the result is never the empty list. -/
def splitComma (s : List Char) : List (List Char) := splitCommaAux [] s

/-- Model of Python's `s.strip()`: drop leading and trailing whitespace. -/
def pyStrip (s : List Char) : List Char :=
  ((s.dropWhile Char.isWhitespace).reverse.dropWhile Char.isWhitespace).reverse

/-- The list comprehension `[tech.strip() for tech in user_input.split(",")]`. -/
def pySplitStrip (u : String) : List String :=
  (splitComma u.toList).map (fun cs => (pyStrip cs).asString)

/-- Python dict assignment `d[k] = v` on an association list: replace the
value at an existing key in place, otherwise append the new key at the end. -/
def setKey {β : Type} (k : String) (v : β) : List (String × β) → List (String × β)
  | [] => [(k, v)]
  | (k', v') :: rest => if k' = k then (k, v) :: rest else (k', v') :: setKey k v rest

/-- The five termination keywords the code checks
(`["goodbye", "bye", "exit", "quit", "thank you"]` in
`update_conversation_state`). -/
def endKeywords : List String := ["goodbye", "bye", "exit", "quit", "thank you"]

/-- The four-keyword set named by the specification claims. -/
def specEndKeywords : List String := ["goodbye", "bye", "exit", "quit"]

/-- The code's termination test:
`any(word in user_input.lower() for word in [...])`. -/
def hasTermKeyword (u : String) : Bool :=
  endKeywords.any (fun w => isSubstring w.toList (pyLower u))

/-- The claims' termination test over the four keywords goodbye, bye, exit,
quit only. -/
def hasSpecTermKeyword (u : String) : Bool :=
  specEndKeywords.any (fun w => isSubstring w.toList (pyLower u))

/-- The interview stages that appear as `stage` strings in the program. -/
inductive Stage
  | greeting
  | collecting_info
  | tech_stack
  | technical_questions
  | summary
  | ending
deriving DecidableEq

/-- One value of the `scores` dict: `{"total": 0, "questions": []}`.  The
`questions` field is an `Option` because the code defensively checks
`if "questions" not in state["scores"][current_tech]`, i.e. the key might
be absent; entries of the list would pair a raw answer with its mark. -/
structure ScoreEntry where
  total : ℚ
  questions : Option (List (String × ℚ))
deriving DecidableEq

/-- The `collected_info` dict.  Each key is either absent (`none`) or
holds the raw utterance stored for it; `tech_stack` holds a list. -/
structure CollectedInfo where
  name : Option String
  email : Option String
  phone : Option String
  experience : Option String
  position : Option String
  location : Option String
  tech_stack : Option (List String)
deriving DecidableEq

/-- The `conversation_state` dict built by `initialize_session_state`.
`tech_stack` here is the top-level key of the dict, which the transition
function never touches (it reads and writes `collected_info["tech_stack"]`
instead). -/
structure Session where
  stage : Stage
  collected_info : CollectedInfo
  tech_stack : List String
  questions_asked : Nat
  current_tech : Option String
  current_question_index : Nat
  scores : List (String × ScoreEntry)
  questions : List (String × List String)
deriving DecidableEq

/-- The initial `conversation_state` from `initialize_session_state`. -/
def initState : Session :=
  { stage := .greeting
    collected_info := ⟨none, none, none, none, none, none, none⟩
    tech_stack := []
    questions_asked := 0
    current_tech := none
    current_question_index := 0
    scores := []
    questions := [] }

/-- The `collecting_info` branch of `update_conversation_state`: the
`elif` chain stores the raw utterance into the first absent field in the
order name, email, phone, experience, position, location, and moves the
stage to `tech_stack` when `location` is the field just filled. -/
def stepCollecting (u : String) (s : Session) : Session :=
  let ci := s.collected_info
  if ci.name = none then {s with collected_info := {ci with name := some u}}
  else if ci.email = none then {s with collected_info := {ci with email := some u}}
  else if ci.phone = none then {s with collected_info := {ci with phone := some u}}
  else if ci.experience = none then {s with collected_info := {ci with experience := some u}}
  else if ci.position = none then {s with collected_info := {ci with position := some u}}
  else if ci.location = none then
    {s with collected_info := {ci with location := some u}, stage := .tech_stack}
  else s

/-- The `tech_stack` branch of `update_conversation_state`: if
`collected_info` has no `tech_stack` key yet, split the utterance on
commas, strip each piece, store the list, create a `scores` entry for each
technology, advance the stage, and point `current_tech` at the first
technology when the list is non-empty.  The `questions` dict is not
touched. -/
def stepTechStack (u : String) (s : Session) : Session :=
  match s.collected_info.tech_stack with
  | some _ => s
  | none =>
    let techs := pySplitStrip u
    let s' : Session :=
      { s with
        collected_info := {s.collected_info with tech_stack := some techs}
        scores := techs.foldl (fun acc t => setKey t ⟨0, some []⟩ acc) s.scores
        stage := .technical_questions }
    match techs with
    | [] => s'
    | t :: _ => {s' with current_tech := some t, current_question_index := 0}

/-- The defensive fix at the top of the `technical_questions` branch:
`if "questions" not in state["scores"][current_tech]:` create it empty. -/
def scoresFix (ct : String) (entry : ScoreEntry) (scores : List (String × ScoreEntry)) :
    List (String × ScoreEntry) :=
  if entry.questions = none then setKey ct {entry with questions := some []} scores
  else scores

/-- The `technical_questions` branch of `update_conversation_state`.  The
guard `if current_tech and current_tech in state["scores"]` makes the
branch a no-op when `current_tech` is `None`, the empty string (falsy in
Python), or not a key of `scores`.  Otherwise the question index is
incremented and, when it reaches the length of
`questions.get(current_tech, [])`, the pointer moves to the technology
after the first occurrence of `current_tech` in
`collected_info.get("tech_stack", [])`, or the stage becomes `summary`
when there is none. -/
def stepTechnical (s : Session) : Session :=
  match s.current_tech with
  | none => s
  | some ct =>
    if ct = "" then s
    else
      match List.lookup ct s.scores with
      | none => s
      | some entry =>
        let scores' := scoresFix ct entry s.scores
        let idx := s.current_question_index + 1
        let ts := s.collected_info.tech_stack.getD []
        let qs := (List.lookup ct s.questions).getD []
        if idx ≥ qs.length then
          if ct ∈ ts then
            let i := List.indexOf ct ts
            if i + 1 < ts.length then
              {s with scores := scores', current_question_index := 0,
                      current_tech := some (ts.getD (i + 1) "")}
            else
              {s with scores := scores', current_question_index := idx, stage := .summary}
          else {s with scores := scores', current_question_index := idx}
        else {s with scores := scores', current_question_index := idx}

/-- The transition function `update_conversation_state`.  The returned
`Nat` counts how many times the persistence hand-off
(`save_conversation_data`) is triggered during the turn: once in the
termination branch, never elsewhere. -/
def update_conversation_state (u : String) (s : Session) : Session × Nat :=
  if hasTermKeyword u then ({s with stage := .ending}, 1)
  else
    match s.stage with
    | .greeting => ({s with stage := .collecting_info}, 0)
    | .collecting_info => (stepCollecting u s, 0)
    | .tech_stack => (stepTechStack u s, 0)
    | .technical_questions => (stepTechnical s, 0)
    | .summary => (s, 0)
    | .ending => (s, 0)

/-- One turn of the state machine: the session after
`update_conversation_state`. -/
def step (u : String) (s : Session) : Session := (update_conversation_state u s).1

/-- Feeding a list of utterances to the transition function in order. -/
def runTurns (us : List String) (s : Session) : Session := us.foldl (fun s' u => step u s') s

/-- Outcome of the language-model collaborator inside `get_chat_response`:
the client initialisation may fail (before the state update), the chat
completion call may fail (after the state update), or the call succeeds
and returns a text. -/
inductive CollabOutcome
  | ok (text : String)
  | initFailure
  | apiFailure

/-- The static fallback returned by the `except` handler of
`get_chat_response`. -/
def fallbackResponse : String :=
  "I apologize, but I\x27m experiencing technical difficulties. Please try again in a moment."

/-- Control flow of `get_chat_response`: the Groq client is initialised
first, then (for a non-empty utterance) `update_conversation_state` runs,
and only then the completion request is made.  An exception anywhere is
caught by the single `except`, which returns the fallback string; the
in-place state mutation performed before the exception is not rolled
back. -/
def get_chat_response (outcome : CollabOutcome) (u : String) (s : Session) : Session × String :=
  match outcome with
  | .initFailure => (s, fallbackResponse)
  | .ok text => (if u = "" then s else step u s, text)
  | .apiFailure => (if u = "" then s else step u s, fallbackResponse)

/-- Sessions reachable from the initial state by the transition function. -/
inductive Reachable : Session → Prop
  | init : Reachable initState
  | next (u : String) {s : Session} : Reachable s → Reachable (step u s)

/-- Invariant of `current_tech` that the code actually maintains: a member
of the stored tech stack during `technical_questions`; `none` before the
quiz; in `summary` and `ending` either `none` or the retained technology
that was being quizzed when the stage changed (the code never clears it). -/
def ctInv (s : Session) : Prop :=
  match s.stage with
  | .technical_questions =>
      match s.current_tech with
      | none => False
      | some t => t ∈ s.collected_info.tech_stack.getD []
  | .summary =>
      match s.current_tech with
      | none => True
      | some t => t ∈ s.collected_info.tech_stack.getD []
  | .ending =>
      match s.current_tech with
      | none => True
      | some t => t ∈ s.collected_info.tech_stack.getD []
  | _ => s.current_tech = none

/-- All score entries are still exactly `{"total": 0, "questions": []}`. -/
def scoresAllDefault (s : Session) : Bool :=
  s.scores.all (fun p => decide (p.2 = ScoreEntry.mk 0 (some [])))

/-- A session at the start of `collecting_info` with nothing collected. -/
def c2Start : Session := {initState with stage := .collecting_info}

/-- A session at the `tech_stack` stage with nothing collected yet. -/
def c3Start : Session := {initState with stage := .tech_stack}

/-- A session mid-quiz whose `current_tech` is the empty string (a key of
`scores`, with three questions and a next technology available). -/
def c4State : Session :=
  { stage := .technical_questions
    collected_info :=
      ⟨some "n", some "em", some "ph", some "xp", some "pos", some "loc", some ["", "Go"]⟩
    tech_stack := []
    questions_asked := 0
    current_tech := some ""
    current_question_index := 0
    scores := [("", ⟨0, some []⟩), ("Go", ⟨0, some []⟩)]
    questions := [("", ["q1", "q2", "q3"])] }

/-- A session mid-quiz on "Python" with one pending question, about to
receive an answer worth a mark. -/
def c5State : Session :=
  { stage := .technical_questions
    collected_info :=
      ⟨some "n", some "em", some "ph", some "xp", some "pos", some "loc", some ["Python"]⟩
    tech_stack := []
    questions_asked := 0
    current_tech := some "Python"
    current_question_index := 0
    scores := [("Python", ⟨0, some []⟩)]
    questions := [("Python", ["What is a list comprehension?"])] }

/-- A session waiting for the candidate's name. -/
def c6State : Session := {initState with stage := .collecting_info}

/-- The reachable session produced by a full interview with the single
technology "Python" and one answer turn: the quiz ends in `summary`. -/
def c8State : Session :=
  runTurns ["hi", "n", "em", "ph", "xp", "pos", "loc", "Python", "my answer"] initState

/-- The reachable session produced by declaring the tech stack "," — the
comma splits into two empty-string technologies and `current_tech`
becomes the empty string. -/
def c10State : Session :=
  runTurns ["hi", "n", "em", "ph", "xp", "pos", "loc", ","] initState

/-- A session mid-quiz on "Python" with three pending questions and a
second technology "Go" still to come. -/
def c4Quiz : Session :=
  { stage := .technical_questions
    collected_info :=
      ⟨some "n", some "em", some "ph", some "xp", some "pos", some "loc", some ["Python", "Go"]⟩
    tech_stack := []
    questions_asked := 0
    current_tech := some "Python"
    current_question_index := 0
    scores := [("Python", ⟨0, some []⟩), ("Go", ⟨0, some []⟩)]
    questions := [("Python", ["q1", "q2", "q3"])] }

/-- Feeding any list of utterances keeps the session reachable. -/
theorem runTurns_reachable (us : List String) {s : Session} (h : Reachable s) :
    Reachable (runTurns us s) := by
  induction us generalizing s with
  | nil => exact h
  | cons u rest ih => exact ih (Reachable.next u h)

/-- Containing one of the four keywords named by the specification implies
the code's five-keyword test fires. -/
theorem hasSpec_imp_hasTerm (u : String) (h : hasSpecTermKeyword u = true) :
    hasTermKeyword u = true := by
  simp only [hasSpecTermKeyword, specEndKeywords, hasTermKeyword, endKeywords,
    List.any_cons, List.any_nil, Bool.or_eq_true, Bool.or_false] at h ⊢
  tauto

/-- An in-bounds `getD` returns an element of the list. -/
theorem getD_mem_of_lt {α : Type} (l : List α) (n : Nat) (d : α) (h : n < l.length) :
    l.getD n d ∈ l := by
  induction l generalizing n with
  | nil => simp at h
  | cons a rest ih =>
    cases n with
    | zero => simp [List.getD]
    | succ m =>
      have : rest.getD m d ∈ rest := ih m (by simpa using h)
      simpa [List.getD] using Or.inr this

/-- The comma splitter never returns the empty list. -/
theorem splitCommaAux_ne_nil (s acc : List Char) : splitCommaAux acc s ≠ [] := by
  induction s generalizing acc with
  | nil => simp [splitCommaAux]
  | cons c rest ih =>
    simp only [splitCommaAux]
    split
    · simp
    · exact ih (c :: acc)

/-- Splitting and stripping an utterance never yields the empty list:
Python's `"".split(",")` is `[""]`. -/
theorem pySplitStrip_ne_nil (u : String) : pySplitStrip u ≠ [] := by
  simp only [pySplitStrip, ne_eq, List.map_eq_nil_iff]
  exact splitCommaAux_ne_nil u.toList []

/-- Members of `setKey k v l` are the new pair or old members. -/
theorem mem_setKey {β : Type} {k : String} {v : β} {p : String × β} :
    ∀ {l : List (String × β)}, p ∈ setKey k v l → p = (k, v) ∨ p ∈ l := by
  intro l
  induction l with
  | nil => intro h; simpa [setKey] using h
  | cons q rest ih =>
    intro h
    simp only [setKey] at h
    split at h
    · rcases List.mem_cons.mp h with h | h
      · exact Or.inl h
      · exact Or.inr (List.mem_cons_of_mem q h)
    · rcases List.mem_cons.mp h with h | h
      · exact Or.inr (h ▸ List.mem_cons_self q rest)
      · rcases ih h with h' | h'
        · exact Or.inl h'
        · exact Or.inr (List.mem_cons_of_mem q h')

/-- Looking up the key just assigned returns the assigned value. -/
theorem lookup_setKey_self {β : Type} (k : String) (v : β) (l : List (String × β)) :
    List.lookup k (setKey k v l) = some v := by
  induction l with
  | nil => simp [setKey, List.lookup]
  | cons q rest ih =>
    by_cases hq : q.1 = k
    · simp [setKey, hq, List.lookup]
    · have hbeq : (k == q.1) = false := beq_false_of_ne (fun h => hq h.symm)
      simp [setKey, hq, List.lookup, hbeq, ih]

/-- A successful lookup exhibits a member of the association list. -/
theorem lookup_mem {β : Type} {k : String} {v : β} :
    ∀ {l : List (String × β)}, List.lookup k l = some v → (k, v) ∈ l := by
  intro l
  induction l with
  | nil => intro h; simp [List.lookup] at h
  | cons q rest ih =>
    intro h
    rw [List.lookup] at h
    by_cases hq : k = q.1
    · simp [hq] at h
      exact List.mem_cons.mpr (Or.inl (by cases q; simp_all))
    · simp [beq_false_of_ne hq] at h
      exact List.mem_cons_of_mem q (ih h)

/-- A non-keyword turn at stage `technical_questions` runs
`stepTechnical`. -/
theorem step_eq_technical {u : String} {s : Session}
    (hs : s.stage = .technical_questions) (hu : hasTermKeyword u = false) :
    step u s = stepTechnical s := by
  simp [step, update_conversation_state, hs, hu]

/-- A non-keyword turn at stage `summary` is a no-op. -/
theorem step_noop_summary {u : String} {s : Session}
    (hs : s.stage = .summary) (hu : hasTermKeyword u = false) :
    step u s = s := by
  simp [step, update_conversation_state, hs, hu]

/-- Looking up the key just fixed by `scoresFix` still succeeds. -/
theorem lookup_scoresFix_isSome (t : String) (e : ScoreEntry)
    (l : List (String × ScoreEntry)) (he : List.lookup t l = some e) :
    (List.lookup t (scoresFix t e l)).isSome = true := by
  unfold scoresFix
  split
  · simp [lookup_setKey_self]
  · simp [he]

/-- Unfolding of `stepTechnical` when `current_tech` is a usable key. -/
theorem stepTechnical_eq (s : Session) (t : String) (e : ScoreEntry)
    (hct : s.current_tech = some t) (hne : t ≠ "")
    (hsc : List.lookup t s.scores = some e) :
    stepTechnical s =
      (if ((List.lookup t s.questions).getD []).length ≤ s.current_question_index + 1 then
         if t ∈ s.collected_info.tech_stack.getD [] then
           if List.indexOf t (s.collected_info.tech_stack.getD []) + 1
               < (s.collected_info.tech_stack.getD []).length then
             {s with scores := scoresFix t e s.scores, current_question_index := 0,
                     current_tech := some ((s.collected_info.tech_stack.getD []).getD
                       (List.indexOf t (s.collected_info.tech_stack.getD []) + 1) "")}
           else
             {s with scores := scoresFix t e s.scores,
                     current_question_index := s.current_question_index + 1,
                     stage := .summary}
         else
           {s with scores := scoresFix t e s.scores,
                   current_question_index := s.current_question_index + 1}
       else
         {s with scores := scoresFix t e s.scores,
                 current_question_index := s.current_question_index + 1}) := by
  simp only [stepTechnical, hct, hne, hsc, ge_iff_le, if_false]

/-- Mid-question-list turn: only the index moves (and the defensive
`questions`-key fix on the score entry). -/
theorem stepTechnical_mid_proj (s : Session) (t : String)
    (hct : s.current_tech = some t) (hne : t ≠ "")
    (hsc : (List.lookup t s.scores).isSome = true)
    (hlt : s.current_question_index + 1 < ((List.lookup t s.questions).getD []).length) :
    (stepTechnical s).current_question_index = s.current_question_index + 1 ∧
    (stepTechnical s).current_tech = some t ∧
    (stepTechnical s).stage = s.stage ∧
    (stepTechnical s).questions = s.questions ∧
    (stepTechnical s).collected_info = s.collected_info ∧
    (List.lookup t (stepTechnical s).scores).isSome = true := by
  obtain ⟨e, he⟩ := Option.isSome_iff_exists.mp hsc
  rw [stepTechnical_eq s t e hct hne he]
  have hnot : ¬ (((List.lookup t s.questions).getD []).length ≤
      s.current_question_index + 1) := by omega
  rw [if_neg hnot]
  exact ⟨rfl, hct, rfl, rfl, rfl, lookup_scoresFix_isSome t e s.scores he⟩

/-- Exhausted question list with a next technology available: the pointer
advances to the next technology and the index resets to 0. -/
theorem stepTechnical_advance_proj (s : Session) (t : String) (ts : List String)
    (hct : s.current_tech = some t) (hne : t ≠ "")
    (hsc : (List.lookup t s.scores).isSome = true)
    (hts : s.collected_info.tech_stack = some ts)
    (hge : ((List.lookup t s.questions).getD []).length ≤ s.current_question_index + 1)
    (hlt : List.indexOf t ts + 1 < ts.length) :
    (stepTechnical s).current_question_index = 0 ∧
    (stepTechnical s).current_tech = some (ts.getD (List.indexOf t ts + 1) "") ∧
    (stepTechnical s).stage = s.stage := by
  have hmem : t ∈ ts := List.indexOf_lt_length.mp (by omega)
  obtain ⟨e, he⟩ := Option.isSome_iff_exists.mp hsc
  rw [stepTechnical_eq s t e hct hne he]
  simp only [hts, Option.getD_some]
  rw [if_pos hge, if_pos hmem, if_pos hlt]
  exact ⟨rfl, rfl, rfl⟩

/-- Exhausted question list on the last technology: the stage becomes
`summary`. -/
theorem stepTechnical_finish_proj (s : Session) (t : String) (ts : List String)
    (hct : s.current_tech = some t) (hne : t ≠ "")
    (hsc : (List.lookup t s.scores).isSome = true)
    (hts : s.collected_info.tech_stack = some ts)
    (hmem : t ∈ ts)
    (hge : ((List.lookup t s.questions).getD []).length ≤ s.current_question_index + 1)
    (hnlt : ¬ (List.indexOf t ts + 1 < ts.length)) :
    (stepTechnical s).stage = .summary := by
  obtain ⟨e, he⟩ := Option.isSome_iff_exists.mp hsc
  rw [stepTechnical_eq s t e hct hne he]
  simp only [hts, Option.getD_some]
  rw [if_pos hge, if_pos hmem, if_neg hnlt]

/-- C1: in every stage, an utterance containing one of the keywords
goodbye, bye, exit, quit (case-insensitively, as a substring) makes the
transition set the stage to `ending` and trigger the persistence hand-off
exactly once, changing nothing else; afterwards any non-keyword utterance
in the `ending` stage leaves the session unchanged. -/
theorem claim_C1_termination (s : Session) (u v : String)
    (hu : hasSpecTermKeyword u = true) (_hv : hasSpecTermKeyword v = false) :
    update_conversation_state u s = ({s with stage := .ending}, 1) ∧
    step v {s with stage := .ending} = {s with stage := .ending} := by
  have hcode : hasTermKeyword u = true := hasSpec_imp_hasTerm u hu
  constructor
  · simp [update_conversation_state, hcode]
  · by_cases h : hasTermKeyword v
    · simp [step, update_conversation_state, h]
    · simp [step, update_conversation_state, h]

/-- Witness for C1 at the utterance "Bye!" followed by "ok". -/
theorem claim_C1_termination_witness :
    hasSpecTermKeyword "Bye!" = true ∧ hasSpecTermKeyword "ok" = false ∧
    update_conversation_state "Bye!" initState = ({initState with stage := .ending}, 1) ∧
    step "ok" {initState with stage := .ending} = {initState with stage := .ending} :=
  ⟨by decide, by decide,
    claim_C1_termination initState "Bye!" "ok" (by decide) (by decide)⟩

/-- C2 counterexample: the claim quantifies over all sequences of six
utterances, but a first utterance containing "bye" terminates the
interview, so no field is ever captured: after the six turns `name` is
still unset and the stage is `ending`, not `tech_stack`. -/
theorem claim_C2_counterexample :
    (runTurns ["bye", "n", "em", "ph", "xp", "pos"] c2Start).collected_info.name = none ∧
    (runTurns ["bye", "n", "em", "ph", "xp", "pos"] c2Start).stage = .ending := by
  constructor <;> decide

/-- C2 (amended): for all sequences of six utterances, each containing no
termination keyword, fed while stage is `collecting_info` with no fields
collected, the fields are filled in the order name, email, phone,
experience, position, location, one verbatim utterance per turn, and the
stage advances to `tech_stack` exactly on the sixth (location) turn. -/
theorem claim_C2_collect_order (s : Session) (u1 u2 u3 u4 u5 u6 : String)
    (hs : s.stage = .collecting_info)
    (hci : s.collected_info = ⟨none, none, none, none, none, none, none⟩)
    (h1 : hasTermKeyword u1 = false) (h2 : hasTermKeyword u2 = false)
    (h3 : hasTermKeyword u3 = false) (h4 : hasTermKeyword u4 = false)
    (h5 : hasTermKeyword u5 = false) (h6 : hasTermKeyword u6 = false) :
    (runTurns [u1] s).collected_info = ⟨some u1, none, none, none, none, none, none⟩ ∧
    (runTurns [u1] s).stage = .collecting_info ∧
    (runTurns [u1, u2] s).collected_info = ⟨some u1, some u2, none, none, none, none, none⟩ ∧
    (runTurns [u1, u2] s).stage = .collecting_info ∧
    (runTurns [u1, u2, u3] s).collected_info
      = ⟨some u1, some u2, some u3, none, none, none, none⟩ ∧
    (runTurns [u1, u2, u3] s).stage = .collecting_info ∧
    (runTurns [u1, u2, u3, u4] s).collected_info
      = ⟨some u1, some u2, some u3, some u4, none, none, none⟩ ∧
    (runTurns [u1, u2, u3, u4] s).stage = .collecting_info ∧
    (runTurns [u1, u2, u3, u4, u5] s).collected_info
      = ⟨some u1, some u2, some u3, some u4, some u5, none, none⟩ ∧
    (runTurns [u1, u2, u3, u4, u5] s).stage = .collecting_info ∧
    runTurns [u1, u2, u3, u4, u5, u6] s =
      {s with stage := .tech_stack,
              collected_info := ⟨some u1, some u2, some u3, some u4, some u5, some u6, none⟩} := by
  have e1 : step u1 s = {s with collected_info := ⟨some u1, none, none, none, none, none, none⟩} := by
    simp [step, update_conversation_state, h1, hs, stepCollecting, hci]
  have e2 : step u2 (step u1 s)
      = {s with collected_info := ⟨some u1, some u2, none, none, none, none, none⟩} := by
    rw [e1]; simp [step, update_conversation_state, h2, hs, stepCollecting]
  have e3 : step u3 (step u2 (step u1 s))
      = {s with collected_info := ⟨some u1, some u2, some u3, none, none, none, none⟩} := by
    rw [e2]; simp [step, update_conversation_state, h3, hs, stepCollecting]
  have e4 : step u4 (step u3 (step u2 (step u1 s)))
      = {s with collected_info := ⟨some u1, some u2, some u3, some u4, none, none, none⟩} := by
    rw [e3]; simp [step, update_conversation_state, h4, hs, stepCollecting]
  have e5 : step u5 (step u4 (step u3 (step u2 (step u1 s))))
      = {s with collected_info := ⟨some u1, some u2, some u3, some u4, some u5, none, none⟩} := by
    rw [e4]; simp [step, update_conversation_state, h5, hs, stepCollecting]
  have e6 : step u6 (step u5 (step u4 (step u3 (step u2 (step u1 s)))))
      = {s with stage := .tech_stack,
                collected_info := ⟨some u1, some u2, some u3, some u4, some u5, some u6, none⟩} := by
    rw [e5]; simp [step, update_conversation_state, h6, hs, stepCollecting]
  simp only [runTurns, List.foldl_cons, List.foldl_nil]
  rw [e6, e5, e4, e3, e2, e1]
  simp [hs]

/-- Witness for C2 at six concrete utterances. -/
theorem claim_C2_collect_order_witness :
    runTurns ["n1", "n2", "n3", "n4", "n5", "n6"] c2Start =
      {c2Start with
        stage := .tech_stack,
        collected_info := ⟨some "n1", some "n2", some "n3", some "n4", some "n5", some "n6", none⟩} :=
  (claim_C2_collect_order c2Start "n1" "n2" "n3" "n4" "n5" "n6" rfl rfl
    (by decide) (by decide) (by decide) (by decide) (by decide)
    (by decide)).2.2.2.2.2.2.2.2.2.2

/-- C3 counterexample: after the tech-stack utterance "Python, Go , Rust"
the `questions` mapping is still empty — the transition never creates
`questions` keys, so it does not have the three keys the claim asserts. -/
theorem claim_C3_counterexample :
    (step "Python, Go , Rust" c3Start).questions = [] ∧
    List.lookup "Python" (step "Python, Go , Rust" c3Start).questions = none := by
  constructor <;> decide

/-- C3 (amended): the tech-stack utterance "Python, Go , Rust" is split on
commas and trimmed, so `tech_stack` becomes ["Python","Go","Rust"] and
`scores` gets exactly those three keys with total 0, `current_tech`
becomes "Python", the question index 0, and the stage advances to
`technical_questions`; the `questions` mapping is left unchanged (the core
never populates it — that is delegated to the external collaborator). -/
theorem claim_C3_tech_split (s : Session)
    (hs : s.stage = .tech_stack) (hts : s.collected_info.tech_stack = none)
    (hsc : s.scores = []) :
    update_conversation_state "Python, Go , Rust" s =
      ({s with
          collected_info := {s.collected_info with tech_stack := some ["Python", "Go", "Rust"]},
          scores := [("Python", ⟨0, some []⟩), ("Go", ⟨0, some []⟩), ("Rust", ⟨0, some []⟩)],
          stage := .technical_questions,
          current_tech := some "Python",
          current_question_index := 0}, 0) ∧
    (update_conversation_state "Python, Go , Rust" s).1.questions = s.questions := by
  have hkw : hasTermKeyword "Python, Go , Rust" = false := by decide
  have hsplit : pySplitStrip "Python, Go , Rust" = ["Python", "Go", "Rust"] := by decide
  refine ⟨?_, ?_⟩ <;>
    simp [update_conversation_state, hkw, hs, stepTechStack, hts, hsc, hsplit, setKey]

/-- Witness for C3 at the empty starting session of the `tech_stack`
stage. -/
theorem claim_C3_tech_split_witness :
    update_conversation_state "Python, Go , Rust" c3Start =
      ({c3Start with
          collected_info := {c3Start.collected_info with tech_stack := some ["Python", "Go", "Rust"]},
          scores := [("Python", ⟨0, some []⟩), ("Go", ⟨0, some []⟩), ("Rust", ⟨0, some []⟩)],
          stage := .technical_questions,
          current_tech := some "Python",
          current_question_index := 0}, 0) :=
  (claim_C3_tech_split c3Start rfl rfl rfl).1

/-- C5: the code records no mark at all — `scores["Python"]` is still
`{"total": 0, "questions": []}` after the answer turn, even though the
turn was processed (the question index advanced), contradicting the
declared scoring contract.  The branch under the comment "Update score for
current question" only ensures the `questions` key exists. -/
theorem claim_C5_no_mark_recorded :
    hasTermKeyword "A list comprehension builds a new list from an iterable" = false ∧
    (step "A list comprehension builds a new list from an iterable" c5State).scores
      = [("Python", ⟨0, some []⟩)] ∧
    (step "A list comprehension builds a new list from an iterable" c5State).current_question_index
      = 1 := by
  refine ⟨by decide, by decide, by decide⟩

/-- C6 counterexample: with the chat-completion call failing, the turn
returns the fallback apology but the session state is not the pre-call
state — the utterance "Alice Smith" was already captured as the name by
`update_conversation_state`, which runs before the completion call and is
not rolled back by the `except` handler. -/
theorem claim_C6_counterexample :
    (get_chat_response .apiFailure "Alice Smith" c6State).1 ≠ c6State ∧
    (get_chat_response .apiFailure "Alice Smith" c6State).2 = fallbackResponse ∧
    (get_chat_response .apiFailure "Alice Smith" c6State).1.collected_info.name
      = some "Alice Smith" := by
  refine ⟨by decide, by decide, by decide⟩

/-- C6 (amended): when the completion call fails, the turn returns the
static fallback apology, but the session equals the state *after* the
transition for that utterance (applied before the call and never rolled
back); only a failure of the client initialisation, which precedes the
state update, leaves the session exactly as it was. -/
theorem claim_C6_fallback_keeps_update (u : String) (s : Session) (hu : u ≠ "") :
    (get_chat_response .apiFailure u s).2 = fallbackResponse ∧
    (get_chat_response .apiFailure u s).1 = (update_conversation_state u s).1 ∧
    (get_chat_response .initFailure u s).1 = s := by
  refine ⟨rfl, ?_, rfl⟩
  simp [get_chat_response, step, hu]

/-- Witness for C6 at the utterance "Alice Smith". -/
theorem claim_C6_fallback_keeps_update_witness :
    (get_chat_response .apiFailure "Alice Smith" c6State).2 = fallbackResponse ∧
    (get_chat_response .apiFailure "Alice Smith" c6State).1
      = (update_conversation_state "Alice Smith" c6State).1 ∧
    (get_chat_response .initFailure "Alice Smith" c6State).1 = c6State :=
  claim_C6_fallback_keeps_update "Alice Smith" c6State (by decide)

/-- C7: in `technical_questions`, when `current_tech` is `None` or is not
a key of `scores`, any non-keyword utterance is a no-op — the transition
returns the session unchanged (and, being a total Lean function, raises
nothing). -/
theorem claim_C7_dangling_noop (s : Session) (u : String)
    (hs : s.stage = .technical_questions)
    (hct : s.current_tech = none ∨
      ∃ t, s.current_tech = some t ∧ List.lookup t s.scores = none)
    (hu : hasTermKeyword u = false) :
    update_conversation_state u s = (s, 0) := by
  simp only [update_conversation_state, hu, Bool.false_eq_true, if_false, hs]
  rcases hct with h | ⟨t, h1, h2⟩
  · simp [stepTechnical, h]
  · simp [stepTechnical, h1, h2]

/-- Witness for C7 at a session whose `current_tech` dangles. -/
theorem claim_C7_dangling_noop_witness :
    update_conversation_state "some answer"
      {c5State with current_tech := some "Go"} = ({c5State with current_tech := some "Go"}, 0) :=
  claim_C7_dangling_noop {c5State with current_tech := some "Go"} "some answer" rfl
    (Or.inr ⟨"Go", rfl, by decide⟩) (by decide)

/-- C4 counterexample: the claim's hypotheses allow `current_tech` to be
the empty string (a legal technology name from comma-splitting, and a key
of `scores` with three questions and a successor technology), yet the
Python guard `if current_tech and ...` treats the empty string as falsy,
so the turn is a no-op and the question index stays 0 instead of moving
to 1. -/
theorem claim_C4_counterexample :
    (List.lookup "" c4State.scores).isSome = true ∧
    List.lookup "" c4State.questions = some ["q1", "q2", "q3"] ∧
    c4State.collected_info.tech_stack = some ["", "Go"] ∧
    c4State.current_question_index = 0 ∧
    hasTermKeyword "my answer" = false ∧
    step "my answer" c4State = c4State := by
  refine ⟨by decide, by decide, by decide, by decide, by decide, by decide⟩

/-- C4 (amended): with the extra condition that `current_tech` is a
non-empty technology name, the claim holds: three consecutive non-keyword
answer turns against a three-question list move the index 0, 1, 2 and
then (the increment having reached 3, the length of the list) the third
turn moves `current_tech` to the next technology with the index reset to
0; and when `current_tech` is the last technology and its list is
exhausted, the stage becomes `summary` and stays `summary` on further
non-keyword turns. -/
theorem claim_C4_quiz_progress :
    (∀ (s : Session) (t : String) (ts : List String) (q1 q2 q3 a1 a2 a3 : String),
      s.stage = .technical_questions →
      s.current_tech = some t → t ≠ "" →
      (List.lookup t s.scores).isSome = true →
      List.lookup t s.questions = some [q1, q2, q3] →
      s.current_question_index = 0 →
      s.collected_info.tech_stack = some ts →
      List.indexOf t ts + 1 < ts.length →
      hasTermKeyword a1 = false → hasTermKeyword a2 = false → hasTermKeyword a3 = false →
      ((step a1 s).current_question_index = 1 ∧
       (step a1 s).current_tech = some t ∧
       (step a1 s).stage = .technical_questions ∧
       (step a2 (step a1 s)).current_question_index = 2 ∧
       (step a2 (step a1 s)).current_tech = some t ∧
       (step a2 (step a1 s)).stage = .technical_questions ∧
       (step a3 (step a2 (step a1 s))).current_question_index = 0 ∧
       (step a3 (step a2 (step a1 s))).current_tech
         = some (ts.getD (List.indexOf t ts + 1) "") ∧
       (step a3 (step a2 (step a1 s))).stage = .technical_questions)) ∧
    (∀ (s : Session) (t : String) (ts : List String) (u v : String),
      s.stage = .technical_questions →
      s.current_tech = some t → t ≠ "" →
      (List.lookup t s.scores).isSome = true →
      s.collected_info.tech_stack = some ts → t ∈ ts →
      ¬ (List.indexOf t ts + 1 < ts.length) →
      ((List.lookup t s.questions).getD []).length ≤ s.current_question_index + 1 →
      hasTermKeyword u = false → hasTermKeyword v = false →
      ((step u s).stage = .summary ∧ step v (step u s) = step u s)) := by
  constructor
  · intro s t ts q1 q2 q3 a1 a2 a3 hs hct hne hsc hq hidx hts hnext h1 h2 h3
    -- turn 1
    rw [step_eq_technical hs h1]
    have m1 := stepTechnical_mid_proj s t hct hne hsc
      (by rw [hq, hidx]; simp)
    obtain ⟨i1, c1, g1, p1, f1, l1⟩ := m1
    rw [hidx] at i1
    -- turn 2
    have hs1 : (stepTechnical s).stage = .technical_questions := by rw [g1, hs]
    rw [step_eq_technical hs1 h2]
    have m2 := stepTechnical_mid_proj (stepTechnical s) t c1 hne l1
      (by rw [p1, hq, i1]; simp)
    obtain ⟨i2, c2, g2, p2, f2, l2⟩ := m2
    rw [i1] at i2
    -- turn 3
    have hs2 : (stepTechnical (stepTechnical s)).stage = .technical_questions := by
      rw [g2, hs1]
    rw [step_eq_technical hs2 h3]
    have m3 := stepTechnical_advance_proj (stepTechnical (stepTechnical s)) t ts c2 hne l2
      (by rw [f2, f1, hts]) (by rw [p2, p1, hq, i2]; simp) hnext
    obtain ⟨i3, c3, g3⟩ := m3
    exact ⟨i1, c1, hs1, i2, c2, hs2, i3, c3, by rw [g3, hs2]⟩
  · intro s t ts u v hs hct hne hsc hts hmem hnlt hge hu hv
    rw [step_eq_technical hs hu]
    have hsum : (stepTechnical s).stage = .summary :=
      stepTechnical_finish_proj s t ts hct hne hsc hts hmem hge hnlt
    exact ⟨hsum, step_noop_summary hsum hv⟩

/-- Witness for C4: part one at the two-technology quiz `c4Quiz`, part
two at the single-technology quiz `c5State`. -/
theorem claim_C4_quiz_progress_witness :
    ((step "a1" c4Quiz).current_question_index = 1 ∧
     (step "a1" c4Quiz).current_tech = some "Python" ∧
     (step "a1" c4Quiz).stage = .technical_questions ∧
     (step "a2" (step "a1" c4Quiz)).current_question_index = 2 ∧
     (step "a2" (step "a1" c4Quiz)).current_tech = some "Python" ∧
     (step "a2" (step "a1" c4Quiz)).stage = .technical_questions ∧
     (step "a3" (step "a2" (step "a1" c4Quiz))).current_question_index = 0 ∧
     (step "a3" (step "a2" (step "a1" c4Quiz))).current_tech
       = some ((["Python", "Go"] : List String).getD
           (List.indexOf "Python" ["Python", "Go"] + 1) "") ∧
     (step "a3" (step "a2" (step "a1" c4Quiz))).stage = .technical_questions) ∧
    ((step "u1" c5State).stage = .summary ∧
     step "v1" (step "u1" c5State) = step "u1" c5State) :=
  ⟨claim_C4_quiz_progress.1 c4Quiz "Python" ["Python", "Go"] "q1" "q2" "q3" "a1" "a2" "a3"
      rfl rfl (by decide) (by decide) (by decide) rfl rfl (by decide)
      (by decide) (by decide) (by decide),
   claim_C4_quiz_progress.2 c5State "Python" ["Python"] "u1" "v1"
      rfl rfl (by decide) (by decide) rfl (by decide) (by decide) (by decide)
      (by decide) (by decide)⟩

/-- The `collecting_info` branch never touches `current_tech`, `scores`
or `questions`, and moves the stage only to `tech_stack`. -/
theorem stepCollecting_proj (u : String) (s : Session) :
    (stepCollecting u s).current_tech = s.current_tech ∧
    ((stepCollecting u s).stage = s.stage ∨ (stepCollecting u s).stage = .tech_stack) ∧
    (stepCollecting u s).questions = s.questions ∧
    (stepCollecting u s).scores = s.scores := by
  simp only [stepCollecting]
  split_ifs <;> simp

/-- The `technical_questions` branch never touches the `questions` dict. -/
theorem stepTechnical_questions_eq (s : Session) :
    (stepTechnical s).questions = s.questions := by
  simp only [stepTechnical]
  repeat first | rfl | split

/-- The `tech_stack` branch never touches the `questions` dict. -/
theorem stepTechStack_questions_eq (u : String) (s : Session) :
    (stepTechStack u s).questions = s.questions := by
  simp only [stepTechStack]
  repeat first | rfl | split

/-- The transition function never writes the `questions` dict. -/
theorem step_preserves_questions (u : String) (s : Session) :
    (step u s).questions = s.questions := by
  by_cases hk : hasTermKeyword u
  · simp [step, update_conversation_state, hk]
  · cases hs : s.stage <;>
      simp [step, update_conversation_state, hk, hs,
        (stepCollecting_proj u s).2.2.1, stepTechnical_questions_eq, stepTechStack_questions_eq]

/-- Members after the defensive fix: the fixed pair or an old member. -/
theorem mem_scoresFix {t : String} {e : ScoreEntry} {l : List (String × ScoreEntry)}
    {p : String × ScoreEntry} (h : p ∈ scoresFix t e l) :
    p = (t, {e with questions := some []}) ∨ p ∈ l := by
  unfold scoresFix at h
  split at h
  · exact mem_setKey h
  · exact Or.inr h

/-- Assigning the default entry for every technology preserves
all-entries-default. -/
theorem foldl_setKey_default (techs : List String) (l : List (String × ScoreEntry))
    (hl : ∀ p ∈ l, p.2 = ScoreEntry.mk 0 (some [])) :
    ∀ p ∈ techs.foldl (fun acc t => setKey t ⟨0, some []⟩ acc) l,
      p.2 = ScoreEntry.mk 0 (some []) := by
  induction techs generalizing l with
  | nil => exact hl
  | cons t rest ih =>
    intro p hp
    refine ih (setKey t ⟨0, some []⟩ l) (fun q hq => ?_) p hp
    rcases mem_setKey hq with h | h
    · rw [h]
    · exact hl q h

/-- Whenever `current_tech` is set, the invariant puts it in the stored
tech stack, regardless of the stage. -/
theorem ctInv_mem_of_some {s : Session} {t : String} (h : ctInv s)
    (hct : s.current_tech = some t) : t ∈ s.collected_info.tech_stack.getD [] := by
  unfold ctInv at h
  cases hs : s.stage <;> rw [hs] at h <;> rw [hct] at h <;> simp_all

/-- One transition preserves the `current_tech` invariant. -/
theorem ctInv_step (u : String) (s : Session) (h : ctInv s) : ctInv (step u s) := by
  by_cases hk : hasTermKeyword u
  · have hstep : step u s = {s with stage := .ending} := by
      simp [step, update_conversation_state, hk]
    rw [hstep]
    cases hct : s.current_tech with
    | none => simp [ctInv, hct]
    | some t =>
      have hmem := ctInv_mem_of_some h hct
      simp [ctInv, hct]
      exact hmem
  · cases hs : s.stage with
    | greeting =>
      have hct : s.current_tech = none := by unfold ctInv at h; rw [hs] at h; exact h
      simp [step, update_conversation_state, hk, hs, ctInv, hct]
    | collecting_info =>
      have hct : s.current_tech = none := by unfold ctInv at h; rw [hs] at h; exact h
      have hstep : step u s = stepCollecting u s := by
        simp [step, update_conversation_state, hk, hs]
      rw [hstep]
      obtain ⟨hc, hg, -, -⟩ := stepCollecting_proj u s
      unfold ctInv
      rcases hg with hg | hg <;> rw [hg] <;> simp [hs, hc, hct]
    | tech_stack =>
      have hstep : step u s = stepTechStack u s := by
        simp [step, update_conversation_state, hk, hs]
      rw [hstep]
      cases hts : s.collected_info.tech_stack with
      | some l => unfold stepTechStack; rw [hts]; exact h
      | none =>
        obtain ⟨t, rest, htech⟩ : ∃ t rest, pySplitStrip u = t :: rest := by
          cases hsp : pySplitStrip u with
          | nil => exact absurd hsp (pySplitStrip_ne_nil u)
          | cons t rest => exact ⟨t, rest, rfl⟩
        unfold stepTechStack
        rw [hts, htech]
        simp [ctInv, htech]
    | technical_questions =>
      have hstep : step u s = stepTechnical s := by
        simp [step, update_conversation_state, hk, hs]
      rw [hstep]
      cases hct : s.current_tech with
      | none => unfold stepTechnical; rw [hct]; exact h
      | some t =>
        have hmem := ctInv_mem_of_some h hct
        by_cases ht0 : t = ""
        · unfold stepTechnical; rw [hct]; simp only [ht0, if_pos rfl]; exact h
        · cases hl : List.lookup t s.scores with
          | none =>
            unfold stepTechnical; rw [hct]
            simp only [if_neg ht0, hl]
            exact h
          | some e =>
            rw [stepTechnical_eq s t e hct ht0 hl]
            by_cases hq : ((List.lookup t s.questions).getD []).length ≤
                s.current_question_index + 1
            · by_cases hlt : List.indexOf t (s.collected_info.tech_stack.getD []) + 1 <
                  (s.collected_info.tech_stack.getD []).length
              · rw [if_pos hq, if_pos hmem, if_pos hlt]
                unfold ctInv
                simp only [hs]
                exact getD_mem_of_lt _ _ _ hlt
              · rw [if_pos hq, if_pos hmem, if_neg hlt]
                unfold ctInv
                simp only [hct]
                exact hmem
            · rw [if_neg hq]
              unfold ctInv
              simp only [hs, hct]
              exact hmem
    | summary =>
      have hstep : step u s = s := by simp [step, update_conversation_state, hk, hs]
      rw [hstep]; exact h
    | ending =>
      have hstep : step u s = s := by simp [step, update_conversation_state, hk, hs]
      rw [hstep]; exact h

/-- Pointwise reading of `scoresAllDefault`. -/
theorem scoresAllDefault_iff (s : Session) :
    scoresAllDefault s = true ↔ ∀ p ∈ s.scores, p.2 = ScoreEntry.mk 0 (some []) := by
  simp [scoresAllDefault, List.all_eq_true]

/-- One transition keeps every score entry at its creation value. -/
theorem scoresAllDefault_step (u : String) (s : Session)
    (h : scoresAllDefault s = true) : scoresAllDefault (step u s) = true := by
  rw [scoresAllDefault_iff] at h ⊢
  by_cases hk : hasTermKeyword u
  · have hstep : step u s = {s with stage := .ending} := by
      simp [step, update_conversation_state, hk]
    rw [hstep]; exact h
  · cases hs : s.stage with
    | greeting =>
      have hstep : step u s = {s with stage := .collecting_info} := by
        simp [step, update_conversation_state, hk, hs]
      rw [hstep]; exact h
    | collecting_info =>
      have hstep : step u s = stepCollecting u s := by
        simp [step, update_conversation_state, hk, hs]
      rw [hstep, (stepCollecting_proj u s).2.2.2]; exact h
    | tech_stack =>
      have hstep : step u s = stepTechStack u s := by
        simp [step, update_conversation_state, hk, hs]
      rw [hstep]
      unfold stepTechStack
      cases hts : s.collected_info.tech_stack with
      | some l => exact h
      | none =>
        cases htech : pySplitStrip u with
        | nil => exact h
        | cons t rest =>
          simp only []
          exact foldl_setKey_default (t :: rest) s.scores h
    | technical_questions =>
      have hstep : step u s = stepTechnical s := by
        simp [step, update_conversation_state, hk, hs]
      rw [hstep]
      cases hct : s.current_tech with
      | none => unfold stepTechnical; rw [hct]; exact h
      | some t =>
        by_cases ht0 : t = ""
        · unfold stepTechnical; rw [hct]; simp only [ht0, if_pos rfl]; exact h
        · cases hl : List.lookup t s.scores with
          | none =>
            unfold stepTechnical; rw [hct]; simp only [if_neg ht0, hl]; exact h
          | some e =>
            have hfix : ∀ p ∈ scoresFix t e s.scores, p.2 = ScoreEntry.mk 0 (some []) := by
              intro p hp
              rcases mem_scoresFix hp with hp' | hp'
              · have he : e = ScoreEntry.mk 0 (some []) := h (t, e) (lookup_mem hl)
                rw [hp', he]
              · exact h p hp'
            rw [stepTechnical_eq s t e hct ht0 hl]
            by_cases hq : ((List.lookup t s.questions).getD []).length ≤
                s.current_question_index + 1
            · by_cases hmem : t ∈ s.collected_info.tech_stack.getD []
              · by_cases hlt : List.indexOf t (s.collected_info.tech_stack.getD []) + 1 <
                    (s.collected_info.tech_stack.getD []).length
                · rw [if_pos hq, if_pos hmem, if_pos hlt]; exact hfix
                · rw [if_pos hq, if_pos hmem, if_neg hlt]; exact hfix
              · rw [if_pos hq, if_neg hmem]; exact hfix
            · rw [if_neg hq]; exact hfix
    | summary =>
      have hstep : step u s = s := by simp [step, update_conversation_state, hk, hs]
      rw [hstep]; exact h
    | ending =>
      have hstep : step u s = s := by simp [step, update_conversation_state, hk, hs]
      rw [hstep]; exact h

/-- C8 counterexample: a full interview with tech stack "Python" and one
answer turn reaches the `summary` stage while `current_tech` is still
`some "Python"`, not `None` as the claim requires for non-quiz stages
(the session is reachable by construction: `c8State` is `runTurns` from
`initState`). -/
theorem claim_C8_counterexample :
    c8State.stage = .summary ∧ c8State.current_tech = some "Python" := by
  refine ⟨by decide, by decide⟩

/-- C8 (amended): in every reachable session, `current_tech` is an
element of the stored tech stack whenever the stage is
`technical_questions`; it is `None` in the `greeting`, `collecting_info`
and `tech_stack` stages; and in `summary` and `ending` it is either
`None` or a retained element of the tech stack, because the code never
clears it when leaving the quiz. -/
theorem claim_C8_current_tech_invariant (s : Session) (h : Reachable s) : ctInv s := by
  induction h with
  | init => rfl
  | next u _ ih => exact ctInv_step u _ ih

/-- Witness for C8 at the reachable post-quiz session `c8State`. -/
theorem claim_C8_current_tech_invariant_witness : ctInv c8State :=
  claim_C8_current_tech_invariant c8State
    (runTurns_reachable ["hi", "n", "em", "ph", "xp", "pos", "loc", "Python", "my answer"]
      Reachable.init)

/-- C9: in every reachable session every `scores` entry still equals its
creation value `{"total": 0, "questions": []}` — no code path of the core
ever adds a mark to `total` or appends to the `questions` list. -/
theorem claim_C9_scores_never_modified (s : Session) (h : Reachable s) :
    scoresAllDefault s = true := by
  induction h with
  | init => rfl
  | next u _ ih => exact scoresAllDefault_step u _ ih

/-- Witness for C9 at the reachable post-quiz session `c8State`, whose
`scores` mapping is non-empty. -/
theorem claim_C9_scores_never_modified_witness : scoresAllDefault c8State = true :=
  claim_C9_scores_never_modified c8State
    (runTurns_reachable ["hi", "n", "em", "ph", "xp", "pos", "loc", "Python", "my answer"]
      Reachable.init)

/-- C10 counterexample: the reachable session `c10State` (tech-stack
utterance ",") is mid-quiz with `current_tech` the empty string, two
technologies in the stack and an empty `questions` dict, yet two
consecutive non-keyword answer turns change nothing and the stage stays
`technical_questions` — the turns neither advance `current_tech` nor
reach `summary`, so a technology does not consume exactly one turn. -/
theorem claim_C10_counterexample :
    c10State.stage = .technical_questions ∧
    c10State.current_tech = some "" ∧
    c10State.collected_info.tech_stack = some ["", ""] ∧
    c10State.questions = [] ∧
    hasTermKeyword "a1" = false ∧ hasTermKeyword "a2" = false ∧
    runTurns ["a1", "a2"] c10State = c10State := by
  refine ⟨by decide, by decide, by decide, by decide, by decide, by decide, by decide⟩

/-- C10 (amended): the transition function never writes any key into the
`questions` mapping; and when the `questions` dict is (hence) empty and
`current_tech` is a non-empty technology of the stack, every non-keyword
answer turn immediately advances `current_tech` to the next technology
(or sets the stage to `summary` on the last one).  When `current_tech`
is the empty string — reachable from an empty comma-split piece — the
turn is a no-op instead. -/
theorem claim_C10_one_turn_per_tech :
    (∀ (s : Session) (u : String), (step u s).questions = s.questions) ∧
    (∀ (s : Session) (t : String) (ts : List String) (u : String),
      s.stage = .technical_questions → s.current_tech = some t → t ≠ "" →
      (List.lookup t s.scores).isSome = true →
      s.questions = [] →
      s.collected_info.tech_stack = some ts → t ∈ ts →
      hasTermKeyword u = false →
      (if List.indexOf t ts + 1 < ts.length then
        (step u s).current_tech = some (ts.getD (List.indexOf t ts + 1) "") ∧
        (step u s).current_question_index = 0 ∧
        (step u s).stage = .technical_questions
       else (step u s).stage = .summary)) := by
  constructor
  · intro s u; exact step_preserves_questions u s
  · intro s t ts u hs hct hne hsc hq hts hmem hu
    rw [step_eq_technical hs hu]
    have hge : ((List.lookup t s.questions).getD []).length ≤
        s.current_question_index + 1 := by
      rw [hq]; simp [List.lookup]
    by_cases hlt : List.indexOf t ts + 1 < ts.length
    · rw [if_pos hlt]
      obtain ⟨i, c, g⟩ := stepTechnical_advance_proj s t ts hct hne hsc hts hge hlt
      exact ⟨c, i, by rw [g, hs]⟩
    · rw [if_neg hlt]
      exact stepTechnical_finish_proj s t ts hct hne hsc hts hmem hge hlt

/-- Witness for C10: questions preserved on a greeting turn, and a
one-question-less quiz where one answer turn advances from "Python" to
"Go". -/
theorem claim_C10_one_turn_per_tech_witness :
    (step "hello" initState).questions = initState.questions ∧
    (if List.indexOf "Python" ["Python", "Go"] + 1 < (["Python", "Go"] : List String).length then
      (step "next" {c4Quiz with questions := []}).current_tech
        = some ((["Python", "Go"] : List String).getD
            (List.indexOf "Python" ["Python", "Go"] + 1) "") ∧
      (step "next" {c4Quiz with questions := []}).current_question_index = 0 ∧
      (step "next" {c4Quiz with questions := []}).stage = .technical_questions
     else (step "next" {c4Quiz with questions := []}).stage = .summary) :=
  ⟨claim_C10_one_turn_per_tech.1 initState "hello",
   claim_C10_one_turn_per_tech.2 {c4Quiz with questions := []} "Python" ["Python", "Go"]
     "next" rfl rfl (by decide) (by decide) rfl rfl (by decide) (by decide)⟩

end TalentScout
